import Mathlib

/-!
Verification of the flutter video plugin's playback core (`src/audio.rs`,
`src/video.rs`, `src/player.rs`) against its natural-language specification.

The Rust code is shallowly embedded: machine integers become `ℤ`/`ℕ` with
explicit wrap-around where the source truncates, `f64` arithmetic is modelled
exactly over `ℚ` (every `f64` literal of the source is a short decimal, and
every concrete input evaluated here is exactly representable), fallible code
returns `Option`/`Except`, and the loops of the source become recursive
functions or step relations on explicit state.
-/

namespace FlutterVideo

/-! ## Audio: the fill callback of `AudioPlayer::create_stream` (audio.rs:126-161)

A decoded audio frame is its list of interleaved `i16` samples
(`info.samples * info.map.len()` entries), the partial-frame cursor is the
current frame together with `in_off`, and the audio queue is the list of
frames still to be received from `rx`.
-/

/-- Truncation of a rational toward zero: the value of a Rust `f64 as i16`
cast before saturation.  `q.num.tdiv q.den` divides the reduced numerator by
the (positive) denominator rounding toward zero. -/
def truncQ (q : ℚ) : ℤ :=
  q.num.tdiv q.den

/-- Saturation of a Rust `as i16` cast to the `i16` range. -/
def satI16 (n : ℤ) : ℤ :=
  max (-32768) (min 32767 n)

/-- One output sample of the fill callback: models
`buffer[out_i] = (data[in_i] as f64 * volume) as i16` (audio.rs:148). -/
def scaleSample (volume : ℚ) (s : ℤ) : ℤ :=
  satI16 (truncQ ((s : ℚ) * volume))

/-- `1` when the partial-frame cursor holds an in-progress frame, else `0`
(a termination measure helper). -/
def frameBit : Option (List ℤ × ℕ) → ℕ
  | none => 0
  | some _ => 1

/-- The fill callback of `AudioPlayer::create_stream` (audio.rs:128-161) as a
function of the requested sample count `out_len`, the partial-frame cursor
`st` (the `frame`/`in_off` pair captured by the closure) and the queued frames
`q` (what `rx.recv()` will yield, in order).

The result is the list of samples written to the output buffer, the final
cursor and the unconsumed queue; `none` models divergence: with the cursor
empty and the queue exhausted the source blocks inside `rx.recv()` (or, if
the sender is disconnected, keeps looping with `out_len` unchanged).

Branches, in source order: `out_len = 0` exits the `while`; an empty cursor
pops the next frame (`frame = Some(f); in_off = 0`); with a current frame
the copy loop writes `len = min(out_len, in_len)` samples from `data[in_off..]`,
advances both offsets, and clears `frame` when `in_len == len`. -/
def fillCB (volume : ℚ) (out_len : ℕ) (st : Option (List ℤ × ℕ))
    (q : List (List ℤ)) :
    Option (List ℤ × Option (List ℤ × ℕ) × List (List ℤ)) :=
  match out_len, st, q with
  | 0, st, q => some ([], st, q)
  | _ + 1, none, [] => none
  | n + 1, none, f :: q' => fillCB volume (n + 1) (some (f, 0)) q'
  | n + 1, some (f, off), q =>
      if _h : f.length - off ≤ n + 1 then
        (fillCB volume (n + 1 - (f.length - off)) none q).map fun r =>
          (((f.drop off).take (f.length - off)).map (scaleSample volume) ++ r.1,
            r.2)
      else
        (fillCB volume 0 (some (f, off + (n + 1))) q).map fun r =>
          (((f.drop off).take (n + 1)).map (scaleSample volume) ++ r.1, r.2)
termination_by (out_len, 2 * q.length + frameBit st)
decreasing_by
  · apply Prod.Lex.right
    simp [frameBit]
    omega
  · rcases Nat.eq_zero_or_pos (f.length - off) with h0 | h0
    · rw [h0]
      apply Prod.Lex.right
      simp [frameBit]
    · apply Prod.Lex.left
      omega
  · apply Prod.Lex.left
    omega

/-- Samples still to be emitted: the rest of the cursor's frame followed by
the queued frames, flattened. -/
def remStream : Option (List ℤ × ℕ) → List (List ℤ) → List ℤ
  | none, q => q.flatten
  | some (f, off), q => f.drop off ++ q.flatten

/-- A whole sequence of fill-callback invocations with buffer sizes `pulls`,
threading cursor and queue from one call to the next; the written buffers are
concatenated. -/
def runPulls (volume : ℚ) : List ℕ → Option (List ℤ × ℕ) → List (List ℤ) →
    Option (List ℤ × Option (List ℤ × ℕ) × List (List ℤ))
  | [], st, q => some ([], st, q)
  | n :: pulls, st, q =>
      match fillCB volume n st q with
      | none => none
      | some (w, st', q') =>
          (runPulls volume pulls st' q').map fun r => (w ++ r.1, r.2)

/-- Cursor correctness of a single fill-callback invocation: when the queue
holds at least `n` more samples, the callback terminates, the written samples
are the next `n` samples of the remaining stream scaled by the volume, and
exactly those `n` samples are removed from the remaining stream. -/
theorem fillCB_spec (v : ℚ) (n : ℕ) (st : Option (List ℤ × ℕ))
    (q : List (List ℤ)) (hn : n ≤ (remStream st q).length) :
    ∃ st' q', fillCB v n st q =
        some (((remStream st q).take n).map (scaleSample v), st', q') ∧
      remStream st' q' = (remStream st q).drop n := by
  induction n, st, q using fillCB.induct v with
  | case1 st q =>
      exact ⟨st, q, by simp [fillCB]⟩
  | case2 n =>
      simp [remStream] at hn
  | case3 n f q' ih =>
      have hrem : remStream (some (f, 0)) q' = remStream none (f :: q') := by
        simp [remStream]
      rw [hrem] at ih
      obtain ⟨st', q'', h1, h2⟩ := ih hn
      refine ⟨st', q'', ?_, h2⟩
      rw [fillCB]
      exact h1
  | case4 n f off q h ih =>
      have hlen : (f.drop off).length = f.length - off := List.length_drop ..
      simp only [remStream, List.length_append, Nat.succ_eq_add_one] at hn ⊢
      have hq : n + 1 - (f.length - off) ≤ (remStream none q).length := by
        simp only [remStream]
        omega
      obtain ⟨st', q', h1, h2⟩ := ih hq
      simp only [remStream] at h1 h2
      refine ⟨st', q', ?_, ?_⟩
      · rw [fillCB]
        simp only [dif_pos h, h1, Option.map_some]
        have htk : (f.drop off).take (f.length - off) = f.drop off := by
          rw [← hlen]
          exact List.take_length ..
        rw [htk, List.take_append_eq_append_take,
          List.take_of_length_le (l := f.drop off) (by omega), hlen,
          List.map_append]
        simp
      · rw [h2, List.drop_append_eq_append_drop,
          List.drop_of_length_le (l := f.drop off) (by omega),
          List.nil_append, hlen]
  | case5 n f off q h ih =>
      have hlen : (f.drop off).length = f.length - off := List.length_drop ..
      simp only [remStream, Nat.succ_eq_add_one]
      refine ⟨some (f, off + (n + 1)), q, ?_, ?_⟩
      · rw [fillCB]
        simp only [dif_neg h, fillCB, Option.map_some]
        rw [List.take_append_eq_append_take,
          show n + 1 - (f.drop off).length = 0 by omega, List.take_zero,
          List.append_nil]
        simp
      · rw [List.drop_append_eq_append_drop,
          show n + 1 - (f.drop off).length = 0 by omega, List.drop_zero,
          List.drop_drop]

/-- Cursor correctness across a whole sequence of invocations: the
concatenated outputs are the scaled prefix of the remaining stream of the
total requested length, and exactly that prefix is consumed. -/
theorem runPulls_spec (v : ℚ) (pulls : List ℕ) (st : Option (List ℤ × ℕ))
    (q : List (List ℤ)) (hn : pulls.sum ≤ (remStream st q).length) :
    ∃ st' q', runPulls v pulls st q =
        some (((remStream st q).take pulls.sum).map (scaleSample v), st', q') ∧
      remStream st' q' = (remStream st q).drop pulls.sum := by
  induction pulls generalizing st q with
  | nil =>
      exact ⟨st, q, by simp [runPulls]⟩
  | cons n pulls ih =>
      rw [List.sum_cons] at hn
      obtain ⟨st1, q1, h1, h2⟩ := fillCB_spec v n st q (by omega)
      have hn1 : pulls.sum ≤ (remStream st1 q1).length := by
        rw [h2, List.length_drop]
        omega
      obtain ⟨st2, q2, h3, h4⟩ := ih st1 q1 hn1
      refine ⟨st2, q2, ?_, ?_⟩
      · rw [runPulls, h1]
        dsimp only
        rw [h3, h2]
        simp only [Option.map_some', List.sum_cons, ← List.map_append,
          ← List.take_add]
      · rw [h4, h2, List.drop_drop, List.sum_cons]
/-- C1: for every sequence of queued audio frames and every sequence of
fill-callback invocations whose buffer sizes together request exactly the
queued samples, the concatenation of the written buffers equals the
concatenation of the frames' interleaved samples, each scaled by the current
volume, every input sample emitted exactly once and nothing left pending in
the cursor — even when one frame spans several invocations. -/
theorem C1_audio_samples_exactly_once (v : ℚ) (pulls : List ℕ)
    (frames : List (List ℤ))
    (h : pulls.sum = (frames.map List.length).sum) :
    ∃ st q, runPulls v pulls none frames =
        some (frames.flatten.map (scaleSample v), st, q) ∧
      remStream st q = [] := by
  have hlen : (remStream none frames).length = (frames.map List.length).sum := by
    simp [remStream, List.length_flatten]
  obtain ⟨st, q, h1, h2⟩ := runPulls_spec v pulls none frames (by omega)
  refine ⟨st, q, ?_, ?_⟩
  · rw [h1]
    simp only [remStream] at hlen ⊢
    rw [List.take_of_length_le (by omega)]
  · rw [h2]
    simp only [remStream] at hlen ⊢
    exact List.drop_of_length_le (by omega)

/-- Witness for C1: frames of sizes 2 and 3 drained by pulls of sizes 3 and
2, so the second pull starts inside the second frame. -/
theorem C1_audio_samples_exactly_once_witness :
    ∃ st q, runPulls 1 [3, 2] none [[1, 2], [3, 4, 5]] =
        some (([[1, 2], [3, 4, 5]] : List (List ℤ)).flatten.map (scaleSample 1),
          st, q) ∧
      remStream st q = [] :=
  C1_audio_samples_exactly_once 1 [3, 2] [[1, 2], [3, 4, 5]] (by decide)

/-- C2 (code bug): with the partial-frame cursor exhausted and the audio
queue yielding nothing, the fill callback does not fill the remaining output
with silence and return — it diverges (`rx.recv()` blocks until a frame
arrives; on a disconnected channel the `while` loop spins with `out_len`
unchanged), modelled by the `none` result. -/
theorem C2_callback_diverges_on_empty_queue :
    fillCB 1 1 none [] = none := by
  rw [fillCB]

/-! ### The volume round trip (claim C5) -/

/-- On nonnegative rationals truncation toward zero is the floor. -/
theorem truncQ_eq_floor {q : ℚ} (h : 0 ≤ q) : truncQ q = ⌊q⌋ := by
  rw [truncQ, Int.tdiv_eq_ediv (Rat.num_nonneg.mpr h) (Int.ofNat_nonneg _),
    Rat.floor_def]

/-- Truncation toward zero is odd. -/
theorem truncQ_neg (q : ℚ) : truncQ (-q) = -truncQ q := by
  simp [truncQ, Rat.num_neg_eq_neg_num, Rat.neg_den, Int.neg_tdiv]

/-- Saturation is the identity inside the `i16` range. -/
theorem satI16_of_mem {n : ℤ} (h1 : -32768 ≤ n) (h2 : n ≤ 32767) :
    satI16 n = n := by
  simp only [satI16]
  omega

/-- Floor form of the round trip for a nonnegative sample: scaling by `v ≥ 1`
and flooring, then scaling back by `v⁻¹` and flooring, loses at most one. -/
theorem floor_roundtrip (v : ℚ) (m : ℤ) (hv : 1 ≤ v) (hm : 0 ≤ m)
    (hb : (m : ℚ) * v ≤ 32767) :
    0 ≤ ⌊(m : ℚ) * v⌋ ∧ ⌊(m : ℚ) * v⌋ ≤ 32767 ∧
      0 ≤ ⌊(⌊(m : ℚ) * v⌋ : ℚ) * v⁻¹⌋ ∧ ⌊(⌊(m : ℚ) * v⌋ : ℚ) * v⁻¹⌋ ≤ m ∧
      m - 1 ≤ ⌊(⌊(m : ℚ) * v⌋ : ℚ) * v⁻¹⌋ := by
  have hv0 : (0 : ℚ) < v := lt_of_lt_of_le one_pos hv
  have hmQ : (0 : ℚ) ≤ (m : ℚ) := by exact_mod_cast hm
  have hq0 : (0 : ℚ) ≤ (m : ℚ) * v := mul_nonneg hmQ hv0.le
  have ht0 : 0 ≤ ⌊(m : ℚ) * v⌋ := Int.floor_nonneg.mpr hq0
  have ht1 : (⌊(m : ℚ) * v⌋ : ℚ) ≤ (m : ℚ) * v := Int.floor_le _
  have ht2 : ⌊(m : ℚ) * v⌋ ≤ 32767 := by
    have h32 : (⌊(m : ℚ) * v⌋ : ℚ) ≤ 32767 := ht1.trans hb
    exact_mod_cast h32
  refine ⟨ht0, ht2, Int.floor_nonneg.mpr (mul_nonneg ?_ (inv_nonneg.mpr hv0.le)),
    ?_, ?_⟩
  · exact_mod_cast ht0
  · have hup : (⌊(m : ℚ) * v⌋ : ℚ) * v⁻¹ ≤ (m : ℚ) := by
      have := mul_le_mul_of_nonneg_right ht1 (inv_nonneg.mpr hv0.le)
      rwa [mul_assoc, mul_inv_cancel₀ (ne_of_gt hv0), mul_one] at this
    calc ⌊(⌊(m : ℚ) * v⌋ : ℚ) * v⁻¹⌋ ≤ ⌊(m : ℚ)⌋ := Int.floor_le_floor hup
      _ = m := Int.floor_intCast m
  · have hlow : (m : ℚ) * v - 1 < (⌊(m : ℚ) * v⌋ : ℚ) := Int.sub_one_lt_floor _
    have hstep : ((m : ℚ) * v - 1) * v⁻¹ < (⌊(m : ℚ) * v⌋ : ℚ) * v⁻¹ :=
      mul_lt_mul_of_pos_right hlow (inv_pos.mpr hv0)
    have hexp : ((m : ℚ) * v - 1) * v⁻¹ = (m : ℚ) - v⁻¹ := by
      field_simp
    have hinv1 : v⁻¹ ≤ 1 := inv_le_one_of_one_le₀ hv
    refine Int.le_floor.mpr ?_
    push_cast
    rw [hexp] at hstep
    linarith

/-- C5, amended: for every i16 sample and every volume `v ≥ 1` whose scaled
value stays inside the i16 range, scaling by `v` and then by `1/v` recovers
the sample within one least-significant bit.  (For `0 < v < 1` the claim is
false: truncation toward zero after the down-scale can destroy the sample
entirely, see the counterexample.) -/
theorem C5_volume_roundtrip_amended (v : ℚ) (s : ℤ) (hv : 1 ≤ v)
    (hb : |(s : ℚ) * v| ≤ 32767) :
    (scaleSample (1 / v) (scaleSample v s) - s).natAbs ≤ 1 := by
  rw [one_div]
  have hv0 : (0 : ℚ) < v := lt_of_lt_of_le one_pos hv
  rcases le_or_lt 0 s with hs | hs
  · have hsQ : (0 : ℚ) ≤ (s : ℚ) := by exact_mod_cast hs
    have hq0 : (0 : ℚ) ≤ (s : ℚ) * v := mul_nonneg hsQ hv0.le
    have hb' : (s : ℚ) * v ≤ 32767 := by rwa [abs_of_nonneg hq0] at hb
    obtain ⟨ht0, ht2, hr0, hr1, hr2⟩ := floor_roundtrip v s hv hs hb'
    have e1 : scaleSample v s = ⌊(s : ℚ) * v⌋ := by
      rw [scaleSample, truncQ_eq_floor hq0, satI16_of_mem (by omega) ht2]
    rw [e1, scaleSample,
      truncQ_eq_floor (mul_nonneg (by exact_mod_cast ht0) (inv_nonneg.mpr hv0.le)),
      satI16_of_mem (by omega) ?hle]
    case hle =>
      have hsb : s ≤ 32767 := by
        have : (s : ℚ) ≤ (s : ℚ) * v := le_mul_of_one_le_right hsQ hv
        have h32 : (s : ℚ) ≤ 32767 := this.trans hb'
        exact_mod_cast h32
      omega
    omega
  · set m : ℤ := -s with hmdef
    have hm : 0 ≤ m := by omega
    have hmQ : (0 : ℚ) ≤ (m : ℚ) := by exact_mod_cast hm
    have hcast : (s : ℚ) * v = -((m : ℚ) * v) := by
      rw [hmdef]
      push_cast
      ring
    have hq0 : (0 : ℚ) ≤ (m : ℚ) * v := mul_nonneg hmQ hv0.le
    have hb' : (m : ℚ) * v ≤ 32767 := by
      rw [hcast, abs_neg, abs_of_nonneg hq0] at hb
      exact hb
    obtain ⟨ht0, ht2, hr0, hr1, hr2⟩ := floor_roundtrip v m hv hm hb'
    have hmb : m ≤ 32767 := by
      have h1 : (m : ℚ) ≤ (m : ℚ) * v := le_mul_of_one_le_right hmQ hv
      have h32 : (m : ℚ) ≤ 32767 := h1.trans hb'
      exact_mod_cast h32
    have e1 : scaleSample v s = -⌊(m : ℚ) * v⌋ := by
      rw [scaleSample, hcast, truncQ_neg, truncQ_eq_floor hq0,
        satI16_of_mem (by omega) (by omega)]
    have hcast2 : ((-⌊(m : ℚ) * v⌋ : ℤ) : ℚ) * v⁻¹ =
        -((⌊(m : ℚ) * v⌋ : ℚ) * v⁻¹) := by
      push_cast
      ring
    rw [e1, scaleSample, hcast2, truncQ_neg,
      truncQ_eq_floor (mul_nonneg (by exact_mod_cast ht0) (inv_nonneg.mpr hv0.le)),
      satI16_of_mem (by omega) (by omega)]
    omega

/-- Witness for the amended claim C5 at `v = 2`, `s = 0`. -/
theorem C5_volume_roundtrip_amended_witness :
    (scaleSample (1 / ((2 : ℤ) : ℚ)) (scaleSample ((2 : ℤ) : ℚ) 0) - 0).natAbs ≤ 1 :=
  C5_volume_roundtrip_amended ((2 : ℤ) : ℚ) 0 (by simp) (by simp)

/-- Counterexample to C5 as stated: at volume `v = 1/1024 ≠ 0` the sample
`512` scales to `1/2`, truncates to `0`, and scaling back by `1/v = 1024`
leaves `0`, which is `512` least-significant bits away from the original. -/
theorem C5_counterexample :
    scaleSample (1 / Rat.divInt 1 1024) (scaleSample (Rat.divInt 1 1024) 512) = 0 ∧
      ¬ ((scaleSample (1 / Rat.divInt 1 1024)
            (scaleSample (Rat.divInt 1 1024) 512) - 512).natAbs ≤ 1) := by
  have h1 : scaleSample (Rat.divInt 1 1024) 512 = 0 := by
    have e : ((512 : ℤ) : ℚ) * Rat.divInt 1 1024 = 1 / 2 := by
      rw [Rat.divInt_eq_div]
      norm_num
    rw [scaleSample, e, truncQ_eq_floor (by norm_num)]
    norm_num [satI16]
  have h2 : scaleSample (1 / Rat.divInt 1 1024) 0 = 0 := by
    rw [scaleSample]
    norm_num
    rw [truncQ_eq_floor (by norm_num)]
    norm_num [satI16]
  rw [h1, h2]
  refine ⟨rfl, by decide⟩

/-! ## Video: `VideoPlayer::create_stream` (video.rs:57-122) and `clamp`
(video.rs:125-133)

The render thread's loop is embedded as a per-iteration step function; the
per-pixel conversion closure (video.rs:106-115) as plane-index computations
plus the BT.601 transform over `ℚ`.
-/

/-- `clamp` (video.rs:125-133): clip to `[0, 255]`, otherwise truncate with a
`f64 as u8` cast (the value is then strictly between 0 and 255, so the cast
is the floor). -/
def clamp (value : ℚ) : ℕ :=
  if value ≤ 0 then 0
  else if 255 ≤ value then 255
  else (truncQ value).toNat

/-- Luma plane index for destination pixel `(cx, cy)`:
`y_plane[cy * y_stride + cx]` (video.rs:108). -/
def lumaIndex (y_stride cy cx : ℕ) : ℕ :=
  cy * y_stride + cx

/-- Chroma plane index for destination pixel `(cx, cy)` as the code computes
it: `u_plane[cy / 2 * width / 2 + cx / 2]` (video.rs:109-110), derived from
the frame `width`, with the plane's `linesize` reads commented out. -/
def chromaIndex (width cy cx : ℕ) : ℕ :=
  cy / 2 * width / 2 + cx / 2

/-- Modelled from the spec: the chroma addressing the spec requires
(`read both chroma samples at (x/2, y/2) using chroma-plane addressing
consistent with the chroma stride`), i.e. row `cy/2` scaled by the chroma
plane's own stride. -/
def chromaIndexSpec (c_stride cy cx : ℕ) : ℕ :=
  cy / 2 * c_stride + cx / 2

/-- The BT.601 transform plus clamping applied to one pixel's `(Y, U, V)`
(video.rs:111-114), `f64` constants modelled exactly over `ℚ`. -/
def yuv2rgb (y u v : ℚ) : ℕ × ℕ × ℕ :=
  let r := 1.164 * (y - 16.0) + 1.596 * (v - 128.0)
  let g := 1.164 * (y - 16.0) - 0.391 * (u - 128.0) - 0.813 * (v - 128.0)
  let b := 1.164 * (y - 16.0) + 2.018 * (u - 128.0)
  (clamp r, clamp g, clamp b)

/-- PTS-to-nanoseconds conversion (video.rs:79-80):
`(Rational64::from_integer(pts * 1_000_000_000) * timebase).to_integer()`,
`to_integer` truncating toward zero. -/
def ptsNanos (pts : ℤ) (timebase : ℚ) : ℤ :=
  truncQ ((pts * 1000000000 : ℤ) * timebase)

/-- Nanoseconds slept before rendering a frame, given the previous frame's
nanosecond PTS, the current frame's nanosecond PTS, and the wall-clock
nanoseconds elapsed since the previous render (video.rs:81-94): for
`pts > prev` the delta is cast to `u32` (`Duration::new(0, (pts - prev) as
u32)`, i.e. reduced mod 2^32) and the sleep is `sleep_time - elapsed` when
`elapsed < sleep_time`, else nothing. -/
def sleepNanos (prev pts : ℤ) (elapsed : ℕ) : ℕ :=
  if prev < pts then
    if elapsed < (pts - prev).toNat % 4294967296 then
      (pts - prev).toNat % 4294967296 - elapsed
    else 0
  else 0

/-- The pacing decision including the first-frame case: `prev_pts` starts as
`None` (video.rs:64) and no sleep happens before the first rendered frame
(video.rs:81 `if let Some(prev)`). -/
def paceSleep : Option ℤ → ℤ → ℕ → ℕ
  | none, _, _ => 0
  | some prev, pts, elapsed => sleepNanos prev pts elapsed

/-- Shared playback state of the video stream (video.rs:13-18). -/
inductive PlayerState
  | Playing
  | Paused
  | Stopped
deriving DecidableEq

/-- A queued video frame: presentation timestamp and timebase
(`frame.t.pts`, `frame.t.timebase`). -/
structure VFrame where
  pts : ℤ
  timebase : ℚ
deriving DecidableEq

/-- Outcome of one iteration of the render thread's loop. -/
inductive IterResult
  /-- `PlayerState::Stopped => break` (video.rs:73). -/
  | halted
  /-- `rx.recv()` on an empty queue while `Playing` blocks (frames consumed,
  nanoseconds slept and the queue are meaningless then). -/
  | blockedOnRecv
  /-- The loop continues: how many frames were received from the queue, the
  nanoseconds slept, the new `prev_pts`, and the queue afterwards. -/
  | stepped (consumed : ℕ) (sleptNanos : ℕ) (prev : Option ℤ) (q : List VFrame)
deriving DecidableEq

/-- One iteration of the video render loop (video.rs:66-119) as a function of
the playback state, the remembered `prev_pts`, the wall-clock nanoseconds
elapsed since `now`, and the queued frames: `Playing` receives one frame,
sleeps per `paceSleep` and renders it; `Paused` sleeps 100 ms
(`Duration::from_millis(100)`) and rechecks without touching the queue;
`Stopped` exits the loop. -/
def renderIter (st : PlayerState) (prev : Option ℤ) (elapsed : ℕ)
    (q : List VFrame) : IterResult :=
  match st with
  | .Stopped => .halted
  | .Paused => .stepped 0 100000000 prev q
  | .Playing =>
      match q with
      | [] => .blockedOnRecv
      | f :: q' =>
          let pts := ptsNanos f.pts f.timebase
          .stepped 1 (paceSleep prev pts elapsed) (some pts) q'

/-- C3 (code bug): the converter's chroma addressing is derived from the
frame width, not from the chroma plane's stride.  For a frame of width 4
whose chroma planes are padded to a stride of 8, destination pixel
`(x, y) = (0, 2)` is read at chroma offset 2 by the code, while
stride-consistent addressing reads offset 8. -/
theorem C3_chroma_addressing_code_bug :
    chromaIndex 4 2 0 = 2 ∧ chromaIndexSpec 8 2 0 = 8 ∧
      chromaIndex 4 2 0 ≠ chromaIndexSpec 8 2 0 := by
  decide

/-- Unfold `clamp` for an in-range value: the `as u8` cast floors. -/
theorem clamp_eq_floor {x : ℚ} (h0 : ¬ x ≤ 0) (h255 : ¬ 255 ≤ x) :
    clamp x = (⌊x⌋).toNat := by
  rw [clamp, if_neg h0, if_neg h255,
    truncQ_eq_floor (le_of_lt (lt_of_not_le h0))]

/-- Unfold `clamp` below the range. -/
theorem clamp_of_nonpos {x : ℚ} (h : x ≤ 0) : clamp x = 0 := by
  rw [clamp, if_pos h]

/-- C7: the per-pixel conversion sends YCbCr (235,128,128) to
(254,254,254) and (16,128,128) to (0,0,0) — every channel within ±2 of
white respectively black. -/
theorem C7_bt601_extremes :
    (((yuv2rgb 235 128 128).1 : ℤ) - 255).natAbs ≤ 2 ∧
    (((yuv2rgb 235 128 128).2.1 : ℤ) - 255).natAbs ≤ 2 ∧
    (((yuv2rgb 235 128 128).2.2 : ℤ) - 255).natAbs ≤ 2 ∧
    (((yuv2rgb 16 128 128).1 : ℤ) - 0).natAbs ≤ 2 ∧
    (((yuv2rgb 16 128 128).2.1 : ℤ) - 0).natAbs ≤ 2 ∧
    (((yuv2rgb 16 128 128).2.2 : ℤ) - 0).natAbs ≤ 2 := by
  have h1 : yuv2rgb 235 128 128 = (254, 254, 254) := by
    simp only [yuv2rgb, Prod.mk.injEq]
    refine ⟨?_, ?_, ?_⟩ <;>
      · rw [clamp_eq_floor (by norm_num) (by norm_num)]
        norm_num
        decide
  have h2 : yuv2rgb 16 128 128 = (0, 0, 0) := by
    simp only [yuv2rgb, Prod.mk.injEq]
    refine ⟨?_, ?_, ?_⟩ <;>
      · rw [clamp_of_nonpos (by norm_num)]
  rw [h1, h2]
  decide

/-- C4, amended: the first frame after (re)start (`prev_pts = None`) renders
with no sleep, and for every consecutive pair whose nanosecond PTS delta is
below 2^32 the renderer sleeps exactly `max 0 (pts_delta - elapsed)`
nanoseconds.  (The code casts the i64 nanosecond delta to `u32`, so deltas of
4.295 s or more wrap, see the counterexample.) -/
theorem C4_pacing_amended :
    (∀ (pts : ℤ) (elapsed : ℕ), paceSleep none pts elapsed = 0) ∧
    ∀ (prev pts : ℤ) (elapsed : ℕ), pts - prev < 4294967296 →
      (paceSleep (some prev) pts elapsed : ℤ) =
        max 0 (pts - prev - (elapsed : ℤ)) := by
  refine ⟨fun pts elapsed => rfl, fun prev pts elapsed h => ?_⟩
  simp only [paceSleep, sleepNanos]
  split_ifs with h1 h2 <;> push_cast <;> omega

/-- Witness for the amended claim C4: a 40 ms PTS delta with 1 ms of
processing time sleeps exactly 39 ms. -/
theorem C4_pacing_amended_witness :
    (paceSleep (some 0) 40000000 1000000 : ℤ) =
      max 0 (40000000 - 0 - ((1000000 : ℕ) : ℤ)) :=
  C4_pacing_amended.2 0 40000000 1000000 (by decide)

/-- Counterexample to C4 as stated: a PTS delta of exactly 2^32 ns (≈4.295 s)
with zero elapsed time sleeps 0 ns, not `max 0 (pts_delta - elapsed)` =
2^32 ns, because the delta is cast to `u32`. -/
theorem C4_pacing_counterexample :
    ¬ ((paceSleep (some 0) 4294967296 0 : ℤ) =
        max 0 ((4294967296 : ℤ) - 0 - ((0 : ℕ) : ℤ))) := by
  decide

/-- C9: while the state is `Paused` the render loop's iteration receives
nothing from the video queue — it sleeps 100 ms (10^8 ns) and leaves the
queue, and its own `prev_pts`, untouched — and while `Stopped` it exits
without receiving either; queued frames are not dropped in either state. -/
theorem C9_paused_consumes_nothing :
    ∀ (prev : Option ℤ) (elapsed : ℕ) (q : List VFrame),
      renderIter .Paused prev elapsed q = .stepped 0 100000000 prev q ∧
        renderIter .Stopped prev elapsed q = .halted :=
  fun _ _ _ => ⟨rfl, rfl⟩

/-! ## Player: the decode dispatcher and controller (player.rs) -/

/-- Capacity of the bounded video queue: `mpsc::sync_channel(24)`
(player.rs:161). -/
def videoQueueCapacity : ℕ := 24

/-- State of the bounded video channel together with its history: everything
the decode thread sent, everything the renderer received, and what is
currently buffered. -/
structure ChanState (α : Type) where
  sent : List α
  received : List α
  buf : List α

/-- Modelled from the spec: one step of the std `sync_channel` created at
player.rs:161, whose implementation is external to this repository — spec §3
"The video queue is bounded (capacity ~24) — the pipeline's sole backpressure
point".  A send is enabled only while the buffer holds fewer than
`videoQueueCapacity` frames (a sender at a full buffer blocks instead of
stepping), and a receive pops the oldest frame; nothing is ever discarded. -/
inductive ChanStep (α : Type) : ChanState α → ChanState α → Prop
  | send (s : ChanState α) (a : α) (h : s.buf.length < videoQueueCapacity) :
      ChanStep α s ⟨s.sent ++ [a], s.received, s.buf ++ [a]⟩
  | recv (s : ChanState α) (a : α) (rest : List α) (h : s.buf = a :: rest) :
      ChanStep α s ⟨s.sent, s.received ++ [a], rest⟩

/-- Channel states reachable from the freshly created channel. -/
def ChanReachable (α : Type) (s : ChanState α) : Prop :=
  Relation.ReflTransGen (ChanStep α) ⟨[], [], []⟩ s

/-- C6: under any interleaving of sends and receives the video queue never
holds more than 24 frames, every frame ever sent is either already received
or still buffered, in order and exactly once (none dropped, none duplicated);
and at a full buffer no send step exists — the decode thread blocks. -/
theorem C6_video_queue_bounded_no_drop :
    (∀ s : ChanState ℕ, ChanReachable ℕ s →
        s.buf.length ≤ videoQueueCapacity ∧ s.received ++ s.buf = s.sent) ∧
    ∀ (s : ChanState ℕ) (a : ℕ), s.buf.length = videoQueueCapacity →
      ¬ ChanStep ℕ s ⟨s.sent ++ [a], s.received, s.buf ++ [a]⟩ := by
  constructor
  · intro s hs
    induction hs with
    | refl => simp [videoQueueCapacity]
    | tail _ hstep ih =>
        cases hstep with
        | send a h =>
            dsimp only
            refine ⟨?_, ?_⟩
            · simp only [List.length_append, List.length_cons,
                List.length_nil]
              omega
            · rw [← List.append_assoc, ih.2]
        | recv a rest h =>
            have hlen := ih.1
            have hord := ih.2
            rw [h] at hlen hord
            dsimp only
            refine ⟨?_, ?_⟩
            · simp only [List.length_cons] at hlen
              omega
            · rw [List.append_assoc, List.singleton_append]
              exact hord
  · intro s a hfull hstep
    have key : ∀ t, ChanStep ℕ s t →
        s.buf.length < videoQueueCapacity ∨ t.sent = s.sent := by
      intro t hstep'
      cases hstep' with
      | send b hb => exact Or.inl hb
      | recv b rest hb => exact Or.inr rfl
    rcases key _ hstep with hlt | hsent
    · omega
    · have hcontra : (s.sent ++ [a]).length = s.sent.length :=
        congrArg List.length hsent
      simp only [List.length_append, List.length_cons, List.length_nil]
        at hcontra
      omega

/-- Witness for C6: after a single send the queue holds one frame within
capacity and nothing was dropped; and a buffer at capacity admits no send. -/
theorem C6_video_queue_bounded_no_drop_witness :
    ((ChanState.mk [7] [] [7] : ChanState ℕ).buf.length ≤ videoQueueCapacity ∧
      (ChanState.mk [7] [] ([7] : List ℕ)).received ++
          (ChanState.mk [7] [] ([7] : List ℕ)).buf =
        (ChanState.mk ([7] : List ℕ) [] [7]).sent) ∧
    ¬ ChanStep ℕ (ChanState.mk [] [] (List.replicate 24 0))
        ⟨[] ++ [5], [], List.replicate 24 0 ++ [5]⟩ :=
  ⟨C6_video_queue_bounded_no_drop.1 ⟨[7], [], [7]⟩
      (Relation.ReflTransGen.single (ChanStep.send ⟨[], [], []⟩ 7 (by decide))),
    C6_video_queue_bounded_no_drop.2 ⟨[], [], List.replicate 24 0⟩ 5 (by decide)⟩

/-- A demuxed stream event: the cases `decode_one` distinguishes
(player.rs:126-141). -/
inductive DemuxEvent (P : Type)
  | NewPacket (stream_index : ℤ) (pkt : P)
  | Eof
  | Other

/-- Result of `decode_one`: `Ok(Option<frame>)`, a propagated error, or the
`unimplemented!()` panic reached on unrecognized events. -/
inductive DecodeResult (F : Type)
  | ok (frame : Option F)
  | error
  | panics

/-- `PlaybackContext::decode_one` (player.rs:125-142) over opaque demux/codec
collaborators: `decoders` is the stream-index map (`self.decoders`),
`sendPacket`/`receiveFrame` give the decoder's behaviour
(`dec.send_packet(&pkt)?; Ok(dec.receive_frame().ok())`, `none` modelling a
`send_packet` error), `ev` the outcome of `self.demuxer.read_event()?`
(`none` modelling a demux error).  Returns the result, the decoder map
afterwards, and the diagnostics printed. -/
def decode_one {P F D : Type} (decoders : ℤ → Option D)
    (sendPacket : D → P → Option D) (receiveFrame : D → D × Option F)
    (ev : Option (DemuxEvent P)) :
    DecodeResult F × (ℤ → Option D) × List String :=
  match ev with
  | none => (.error, decoders, [])
  | some (.NewPacket idx pkt) =>
      match decoders idx with
      | some dec =>
          match sendPacket dec pkt with
          | none => (.error, decoders, [])
          | some dec' =>
              ((receiveFrame dec').2.elim (DecodeResult.ok none)
                  (fun f => .ok (some f)),
                fun j => if j = idx then some (receiveFrame dec').1
                  else decoders j,
                [])
      | none =>
          (.ok none, decoders, ["Skipping packet at index " ++ toString idx])
  | some .Eof => (.ok none, decoders, [])
  | some .Other => (.panics, decoders, ["Unsupported event"])

/-- C8: a packet whose stream index has no registered decoder is dropped
with a diagnostic: `decode_one` returns `Ok(None)`, no error, and the
decoder map is returned unchanged. -/
theorem C8_unmapped_packet_dropped {P F D : Type} (decoders : ℤ → Option D)
    (sendPacket : D → P → Option D) (receiveFrame : D → D × Option F)
    (idx : ℤ) (pkt : P) (h : decoders idx = none) :
    decode_one decoders sendPacket receiveFrame
        (some (.NewPacket idx pkt)) =
      (DecodeResult.ok none, decoders,
        ["Skipping packet at index " ++ toString idx]) := by
  simp [decode_one, h]

/-- Witness for C8 with an empty decoder map and packet index 3. -/
theorem C8_unmapped_packet_dropped_witness :
    decode_one (fun _ => (none : Option ℕ))
        (fun d (_ : ℕ) => some d) (fun d => (d, (none : Option ℕ)))
        (some (.NewPacket 3 0)) =
      (DecodeResult.ok none, fun _ => (none : Option ℕ),
        ["Skipping packet at index " ++ toString (3 : ℤ)]) :=
  C8_unmapped_packet_dropped (fun _ => none) (fun d _ => some d)
    (fun d => (d, none)) 3 0 rfl

namespace Player

/-- `Player::play` (player.rs:213-219): when an audio stream exists the
device call runs first and its error, if any, is returned by `?` before
anything else happens; only after it succeeds is `1` (Playing) stored into
the shared state.  `deviceRes` is the outcome of the external
`AudioStream::play` device call; the pair returned is (result, state). -/
def play {ε : Type} (hasAudio : Bool) (deviceRes : Except ε Unit) (st : ℤ) :
    Except ε Unit × ℤ :=
  if hasAudio then
    match deviceRes with
    | .error e => (.error e, st)
    | .ok _ => (.ok (), 1)
  else (.ok (), 1)

/-- `Player::pause` (player.rs:221-227): as `play`, storing `0` (Paused)
only after the device stop call succeeds. -/
def pause {ε : Type} (hasAudio : Bool) (deviceRes : Except ε Unit) (st : ℤ) :
    Except ε Unit × ℤ :=
  if hasAudio then
    match deviceRes with
    | .error e => (.error e, st)
    | .ok _ => (.ok (), 0)
  else (.ok (), 0)

end Player

/-- C10: if the audio device call fails, `play()` (resp. `pause()`) returns
exactly that error and the shared playback state is unchanged; the store of
Playing = 1 (resp. Paused = 0) happens only on device success. -/
theorem C10_state_stored_only_after_device_success {ε : Type} (e : ε)
    (st : ℤ) :
    @Player.play ε true (.error e) st = (.error e, st) ∧
      @Player.pause ε true (.error e) st = (.error e, st) ∧
      @Player.play ε true (.ok ()) st = (.ok (), 1) ∧
      @Player.pause ε true (.ok ()) st = (.ok (), 0) :=
  ⟨rfl, rfl, rfl, rfl⟩

end FlutterVideo
